import Mathlib

/-!
Verification of the worker-process log-ingestion subsystem
(`src/crossbar/controller/processtypes.py`, class `WorkerProcess`).

Strings are modelled as `List Char` (Python `unicode` text), byte strings as
`List Nat` (each element one byte value).  The mutable attributes of a
`WorkerProcess` instance, together with the observable calls it makes into its
collaborators (the logging sink and the controller's `publish`), are collected
in one state record; every Python method becomes a state-transforming function,
and a method that can raise returns `Except PyErr`.
-/

namespace Crossbar

/-- JSON values as produced by `json.loads`.  Numbers keep their source lexeme:
no claim inspects numeric values, only structure.  Object fields are kept in
insertion order with unique keys, as a Python `dict`. -/
inductive JValue where
  | null
  | bool (b : Bool)
  | num (lexeme : List Char)
  | str (s : List Char)
  | arr (elems : List JValue)
  | obj (fields : List (List Char × JValue))

/-- Left brace character (written by code point to keep it out of string
literals). -/
def lbrace : Char := Char.ofNat 0x7b

/-- Right brace character. -/
def rbrace : Char := Char.ofNat 0x7d

/-- JSON whitespace test. -/
def isJsonWs (c : Char) : Bool := c == ' ' || c == '\t' || c == '\n' || c == '\r'

/-- Drop leading JSON whitespace. -/
def skipWs : List Char → List Char
  | [] => []
  | c :: cs => if isJsonWs c then skipWs cs else c :: cs

/-- ASCII digit test. -/
def isDigitCh (c : Char) : Bool := 48 ≤ c.toNat && c.toNat ≤ 57

/-- Split a maximal run of leading digits. -/
def takeDigits : List Char → List Char × List Char
  | [] => ([], [])
  | c :: cs =>
    if isDigitCh c then
      let p := takeDigits cs
      (c :: p.1, p.2)
    else ([], c :: cs)

/-- Optional fraction part of a JSON number. -/
def parseFrac : List Char → Option (List Char × List Char)
  | '.' :: rest =>
    match takeDigits rest with
    | ([], _) => none
    | (ds, s) => some ('.' :: ds, s)
  | s => some ([], s)

/-- Optional exponent part of a JSON number. -/
def parseExp (s : List Char) : Option (List Char × List Char) :=
  match s with
  | c :: rest =>
    if c == 'e' || c == 'E' then
      let p : List Char × List Char :=
        match rest with
        | '+' :: r => (['+'], r)
        | '-' :: r => (['-'], r)
        | r => ([], r)
      match takeDigits p.2 with
      | ([], _) => none
      | (ds, s2) => some (c :: (p.1 ++ ds), s2)
    else some ([], c :: rest)
  | [] => some ([], [])

/-- Lex a JSON number, returning its lexeme.  (Leading-zero restrictions of the
JSON grammar are not enforced; no claim depends on them.) -/
def parseNumber (s : List Char) : Option (List Char × List Char) :=
  let p : List Char × List Char :=
    match s with
    | '-' :: rest => (['-'], rest)
    | _ => ([], s)
  match takeDigits p.2 with
  | ([], _) => none
  | (ds, s2) =>
    match parseFrac s2 with
    | none => none
    | some (fr, s3) =>
      match parseExp s3 with
      | none => none
      | some (ex, s4) => some (p.1 ++ ds ++ fr ++ ex, s4)

/-- Value of a hex digit. -/
def hexVal (c : Char) : Option Nat :=
  if isDigitCh c then some (c.toNat - 48)
  else if 97 ≤ c.toNat && c.toNat ≤ 102 then some (c.toNat - 87)
  else if 65 ≤ c.toNat && c.toNat ≤ 70 then some (c.toNat - 55)
  else none

/-- Parse the body of a JSON string (the opening quote already consumed),
returning the decoded characters and the input after the closing quote.
Fueled by remaining input length. -/
def parseJsonString : Nat → List Char → Option (List Char × List Char)
  | 0, _ => none
  | _, [] => none
  | fuel + 1, c :: rest =>
    if c == '"' then some ([], rest)
    else if c == '\\' then
      match rest with
      | [] => none
      | e :: r2 =>
        let esc : Option (Char × List Char) :=
          if e == '"' then some ('"', r2)
          else if e == '\\' then some ('\\', r2)
          else if e == '/' then some ('/', r2)
          else if e == 'b' then some (Char.ofNat 8, r2)
          else if e == 'f' then some (Char.ofNat 12, r2)
          else if e == 'n' then some ('\n', r2)
          else if e == 'r' then some ('\r', r2)
          else if e == 't' then some ('\t', r2)
          else if e == 'u' then
            match r2 with
            | a :: b :: c2 :: d :: r3 =>
              match hexVal a, hexVal b, hexVal c2, hexVal d with
              | some ha, some hb, some hc, some hd =>
                some (Char.ofNat (((ha * 16 + hb) * 16 + hc) * 16 + hd), r3)
              | _, _, _, _ => none
            | _ => none
          else none
        match esc with
        | none => none
        | some (ch, r3) =>
          match parseJsonString fuel r3 with
          | none => none
          | some (cs, r4) => some (ch :: cs, r4)
    else if c.toNat < 0x20 then none
    else
      match parseJsonString fuel rest with
      | none => none
      | some (cs, r4) => some (c :: cs, r4)

/-- Insert a key into an object field list with Python `dict` semantics:
an existing key keeps its position and gets the new value, a new key is
appended. -/
def setKey (fields : List (List Char × JValue)) (k : List Char) (v : JValue) :
    List (List Char × JValue) :=
  match fields with
  | [] => [(k, v)]
  | (k0, v0) :: rest => if k0 = k then (k0, v) :: rest else (k0, v0) :: setKey rest k v

mutual

/-- Parse one JSON value.  Fueled; `json_loads` supplies fuel exceeding the
input length, which is enough since every recursion step consumes input. -/
def parseValue : Nat → List Char → Option (JValue × List Char)
  | 0, _ => none
  | fuel + 1, s =>
    match skipWs s with
    | [] => none
    | c :: cs =>
      if c == '"' then
        match parseJsonString (fuel + 1) cs with
        | none => none
        | some (str, rest) => some (JValue.str str, rest)
      else if c == lbrace then
        match skipWs cs with
        | c2 :: cs2 =>
          if c2 == rbrace then some (JValue.obj [], cs2)
          else parseMembers fuel (c2 :: cs2) []
        | [] => none
      else if c == '[' then
        match skipWs cs with
        | c2 :: cs2 =>
          if c2 == ']' then some (JValue.arr [], cs2)
          else parseElems fuel (c2 :: cs2) []
        | [] => none
      else if c == 'n' then
        match cs with
        | 'u' :: 'l' :: 'l' :: rest => some (JValue.null, rest)
        | _ => none
      else if c == 't' then
        match cs with
        | 'r' :: 'u' :: 'e' :: rest => some (JValue.bool true, rest)
        | _ => none
      else if c == 'f' then
        match cs with
        | 'a' :: 'l' :: 's' :: 'e' :: rest => some (JValue.bool false, rest)
        | _ => none
      else if c == '-' || isDigitCh c then
        match parseNumber (c :: cs) with
        | none => none
        | some (lex, rest) => some (JValue.num lex, rest)
      else none

/-- Parse the members of a JSON object (after at least one member is known to
follow). -/
def parseMembers : Nat → List Char → List (List Char × JValue) →
    Option (JValue × List Char)
  | 0, _, _ => none
  | fuel + 1, s, acc =>
    match skipWs s with
    | [] => none
    | c :: cs =>
      if c == '"' then
        match parseJsonString (fuel + 1) cs with
        | none => none
        | some (key, s1) =>
          match skipWs s1 with
          | ':' :: s2 =>
            match parseValue fuel s2 with
            | none => none
            | some (v, s3) =>
              match skipWs s3 with
              | ',' :: s4 => parseMembers fuel s4 (setKey acc key v)
              | c2 :: s4 =>
                if c2 == rbrace then some (JValue.obj (setKey acc key v), s4)
                else none
              | [] => none
          | _ => none
      else none

/-- Parse the elements of a JSON array (after at least one element is known to
follow). -/
def parseElems : Nat → List Char → List JValue → Option (JValue × List Char)
  | 0, _, _ => none
  | fuel + 1, s, acc =>
    match parseValue fuel s with
    | none => none
    | some (v, s1) =>
      match skipWs s1 with
      | ',' :: s2 => parseElems fuel s2 (acc ++ [v])
      | c :: s2 => if c == ']' then some (JValue.arr (acc ++ [v]), s2) else none
      | [] => none

end

/-- Model of `json.loads`: parse one JSON document, requiring only whitespace
to remain; `none` models a raised `ValueError`. -/
def json_loads (s : List Char) : Option JValue :=
  match parseValue (s.length + 1) s with
  | none => none
  | some (v, rest) => if skipWs rest = [] then some v else none

/-- UTF-8 continuation byte test. -/
def isCont (b : Nat) : Bool := 0x80 ≤ b && b < 0xC0

/-- Model of Python `bytes.decode('utf8')` with the default strict error
handler: `none` models a raised `UnicodeDecodeError`.  Overlong encodings,
surrogate code points and out-of-range lead bytes are rejected, as CPython
does. -/
def utf8Decode : List Nat → Option (List Char)
  | [] => some []
  | b :: bs =>
    if b < 0x80 then
      match utf8Decode bs with
      | none => none
      | some cs => some (Char.ofNat b :: cs)
    else if b < 0xC2 then none
    else if b < 0xE0 then
      match bs with
      | b1 :: bs1 =>
        if isCont b1 then
          match utf8Decode bs1 with
          | none => none
          | some cs => some (Char.ofNat ((b - 0xC0) * 0x40 + (b1 - 0x80)) :: cs)
        else none
      | [] => none
    else if b < 0xF0 then
      match bs with
      | b1 :: b2 :: bs2 =>
        if isCont b1 && isCont b2 then
          let cp := (b - 0xE0) * 0x1000 + (b1 - 0x80) * 0x40 + (b2 - 0x80)
          if cp < 0x800 || (0xD800 ≤ cp && cp < 0xE000) then none
          else
            match utf8Decode bs2 with
            | none => none
            | some cs => some (Char.ofNat cp :: cs)
        else none
      | _ => none
    else if b < 0xF5 then
      match bs with
      | b1 :: b2 :: b3 :: bs3 =>
        if isCont b1 && isCont b2 && isCont b3 then
          let cp := (b - 0xF0) * 0x40000 + (b1 - 0x80) * 0x1000 +
                    (b2 - 0x80) * 0x40 + (b3 - 0x80)
          if cp < 0x10000 || 0x110000 ≤ cp then none
          else
            match utf8Decode bs3 with
            | none => none
            | some cs => some (Char.ofNat cp :: cs)
        else none
      | _ => none
    else none

/-- Hex digit character for a value below 16 (lower case, as Python). -/
def hexDigitCh (n : Nat) : Char :=
  if n < 10 then Char.ofNat (48 + n) else Char.ofNat (87 + n)

/-- Modelled from the spec: `escape_formatting` (imported from
`crossbar._logging`, which is not under `src/`) sanitizes text by escaping
characters that could corrupt a downstream terminal or log sink; the spec
calls its output a control-character-escaped copy.  Each control character is
replaced by a backslash-x hex escape.  The newline character is left intact:
in the plain-text path the code splits the sanitized text on the platform line
terminator afterwards (and the spec's §4.3/§8 examples require `"foo\nbar"` to
still split into two lines), so the sanitizer cannot consume newlines. -/
def escape_formatting (s : List Char) : List Char :=
  (s.map (fun c =>
    if c.toNat < 0x20 && !(c == '\n') then
      ['\\', 'x', hexDigitCh (c.toNat / 16), hexDigitCh (c.toNat % 16)]
    else [c])).flatten

/-- Single quote character. -/
def squote : Char := Char.ofNat 39

/-- Escaped form of one byte inside a Python `repr` of a bytes object. -/
def reprByte (b : Nat) : List Char :=
  if b = 0x5C then ['\\', '\\']
  else if b = 39 then ['\\', squote]
  else if b = 9 then ['\\', 't']
  else if b = 10 then ['\\', 'n']
  else if b = 13 then ['\\', 'r']
  else if 0x20 ≤ b && b < 0x7F then [Char.ofNat b]
  else ['\\', 'x', hexDigitCh (b / 16), hexDigitCh (b % 16)]

/-- Model of Python `repr` applied to a bytes object: a verbatim
quoted/escaped representation of the received bytes. -/
def reprBytes (data : List Nat) : List Char :=
  'b' :: squote :: (data.map reprByte).flatten ++ [squote]

/-- Python `str.strip` whitespace test (ASCII whitespace). -/
def isPySpace (c : Char) : Bool :=
  c == ' ' || c == '\t' || c == '\n' || c == '\r' ||
  c == Char.ofNat 11 || c == Char.ofNat 12

/-- Model of Python `str.strip()`. -/
def pyStrip (s : List Char) : List Char :=
  ((s.dropWhile isPySpace).reverse.dropWhile isPySpace).reverse

/-- Modelled from the spec: `record_separator` (imported from
`crossbar._logging`, not under `src/`) is the fixed record-separator byte
framing consecutive structured records (ASCII RS). -/
def record_separator : Char := Char.ofNat 0x1e

/-- Modelled from the spec: `cb_logging_aware` (imported from
`crossbar._logging`, not under `src/`) is the fixed protocol marker — the
magic phrase a logging-aware child emits as its very first output.  The spec
fixes only that it is a fixed non-empty byte sequence; the concrete phrase
below stands in for the wire constant. -/
def cb_logging_aware : List Char := ("CROSSBAR_RICH_LOGGING_ENABLE=True").toList

/-- `os.linesep` on the POSIX platform the node controller runs on. -/
def os_linesep : Char := '\n'

/-- The fixed finite set of severity names (`crossbar._logging.LogLevel`). -/
inductive LogLevel where
  | trace
  | debug
  | info
  | warn
  | error
  | critical
deriving DecidableEq

/-- Modelled from the spec: `LogLevel.levelWithName` (from `crossbar._logging`,
not under `src/`) resolves a severity name against the fixed finite set of
severity names; an unresolvable name is a hard decode error (`none`).  The
argument is the JSON value found under the record's level key; a non-string
value never resolves. -/
def levelWithName (v : JValue) : Option LogLevel :=
  match v with
  | JValue.str s =>
    if s = ("trace").toList then some .trace
    else if s = ("debug").toList then some .debug
    else if s = ("info").toList then some .info
    else if s = ("warn").toList then some .warn
    else if s = ("error").toList then some .error
    else if s = ("critical").toList then some .critical
    else none
  | _ => none

/-- Python exceptions that `WorkerProcess.log` can let escape to its caller. -/
inductive PyErr where
  | assertionError
  | unicodeDecodeError
  | keyError (key : List Char)
  | attributeError
  | invalidLogLevel (v : JValue)

/-- One entry of the history buffer `_log_entries`.  The Python deque holds
strings (the `repr` of raw-channel data, and plain-text rows) and dicts (the
residual event dict of a structured record). -/
inductive Entry where
  | str (s : List Char)
  | obj (fields : List (List Char × JValue))

/-- One call into the logging sink, in the order the code makes them:
`self._logger.info(...)`, `self._logger.emit(level, ...)` and
`self._logger.warn(...)`. -/
inductive Emission where
  | info (text : List Char) (log_system : List Char) (cb_namespace : Option (List Char))
  | emit (level : LogLevel) (text : JValue) (log_system : List Char)
         (cb_namespace : Option JValue) (extra : List (List Char × JValue))
  | warn (text : List Char)

/-- State of one `WorkerProcess` instance, together with the observable calls
it has made: `emitted` records calls into the logging sink and `published`
records `self._controller.publish(topic, payload)` calls, both oldest first.
`exit_fired` records whether the `exit` Deferred has fired (it runs its
callback chain at most once). -/
structure WorkerProcess where
  status : List Char
  pid : Option Nat
  logname : List Char
  _log_rich : Option Bool
  _log_data : List Char
  _log_entries : List Entry
  _log_topic : List Char
  exit_fired : Bool
  emitted : List Emission
  published : List (List Char × JValue)

/-- Decimal digits of a pid, or the string `str(None)` renders to. -/
def pidStr : Option Nat → List Char
  | none => ("None").toList
  | some p => Nat.toDigits 10 p

/-- Pad on the right to width `n` with spaces (Python `"{:<10}"`). -/
def padRightTo (n : Nat) (s : List Char) : List Char :=
  s ++ List.replicate (n - s.length) ' '

/-- Pad on the left to width `n` with spaces (Python `"{:>6}"`). -/
def padLeftTo (n : Nat) (s : List Char) : List Char :=
  List.replicate (n - s.length) ' ' ++ s

/-- The fixed-width worker label `"{:<10} {:>6}".format(self.LOGNAME, self.pid)`
computed at the top of `WorkerProcess.log`. -/
def logSystem (logname : List Char) (pid : Option Nat) : List Char :=
  padRightTo 10 logname ++ [' '] ++ padLeftTo 6 (pidStr pid)

/-- Model of `dict.pop(k)` on an object field list: `none` models a raised
`KeyError`. -/
def popKey (k : List Char) : List (List Char × JValue) →
    Option (JValue × List (List Char × JValue))
  | [] => none
  | (k0, v) :: rest =>
    if k0 = k then some (v, rest)
    else
      match popKey k rest with
      | none => none
      | some (v1, rest1) => some (v1, (k0, v) :: rest1)

/-- Model of `collections.deque(maxlen=10).append`: when full the oldest entry
is evicted from the left. -/
def dequeAppend (entries : List Entry) (e : Entry) : List Entry :=
  let l := entries ++ [e]
  l.drop (l.length - 10)

/-- The dict the code builds when `json.loads` raises `ValueError`
(`processtypes.py` lines 161-162). -/
def degradedDict (log : List Char) : JValue :=
  JValue.obj [(("level").toList, JValue.str (("warn").toList)),
              (("text").toList,
               JValue.str ((("INVALID JSON: ").toList) ++ escape_formatting log))]

/-- The decoded form of one raw structured record: the popped `level`, `text`
and optional `namespace`, and the residual dict left after the pops. -/
structure RichEvent where
  level : LogLevel
  text : JValue
  cb_namespace : Option JValue
  extra : List (List Char × JValue)

/-- The field list left after `event.pop("namespace", None)`: the default
makes a missing key a no-op. -/
def popNamespace (f : List (List Char × JValue)) : List (List Char × JValue) :=
  match popKey (("namespace").toList) f with
  | none => f
  | some p => p.2

/-- Decoding of one raw structured record (`processtypes.py` lines 156-165):
`json.loads` with the `ValueError` fallback to the degraded dict, then
`event.pop("text")`, `event.pop("namespace", None)`,
`LogLevel.levelWithName(event.pop("level"))`.  `pop` on a non-dict raises
(`attributeError`); a missing required key raises `KeyError`; an unresolvable
level name raises out of `levelWithName`. -/
def decodeRecord (log : List Char) : Except PyErr RichEvent :=
  let event : JValue :=
    match json_loads log with
    | some v => v
    | none => degradedDict log
  match event with
  | JValue.obj fields =>
    match popKey (("text").toList) fields with
    | none => .error (.keyError (("text").toList))
    | some (event_text, f1) =>
      let event_namespace : Option JValue :=
        match popKey (("namespace").toList) f1 with
        | none => none
        | some p => some p.1
      match popKey (("level").toList) (popNamespace f1) with
      | none => .error (.keyError (("level").toList))
      | some (lv, f3) =>
        match levelWithName lv with
        | none => .error (.invalidLogLevel lv)
        | some level => .ok ⟨level, event_text, event_namespace, f3⟩
  | _ => .error .attributeError

/-- Effects of one successfully framed structured record (`processtypes.py`
lines 167-172): emit to the sink, append the residual dict to the history
buffer, and publish the human text on the topic when one is configured
(`if self._log_topic:`). -/
def processRecord (st : WorkerProcess) (log : List Char) : Except PyErr WorkerProcess :=
  match decodeRecord log with
  | .error e => .error e
  | .ok ev =>
    let st1 := { st with
      emitted := st.emitted ++
        [.emit ev.level ev.text (logSystem st.logname st.pid) ev.cb_namespace ev.extra],
      _log_entries := dequeAppend st._log_entries (.obj ev.extra) }
    if st1._log_topic = [] then .ok st1
    else .ok { st1 with published := st1.published ++ [(st1._log_topic, ev.text)] }

/-- Split a string at every occurrence of `sep`: `(records, remainder)` where
`records` are the separator-terminated segments in order and `remainder` is
the text after the last separator.  This is what the loop
`while record_separator in self._log_data: log, self._log_data =
self._log_data.split(record_separator, 1)` peels off in total: each iteration
removes the next element of `records`, and `remainder` is the final value of
`self._log_data`. -/
def drain (sep : Char) : List Char → List (List Char) × List Char
  | [] => ([], [])
  | c :: cs =>
    let p := drain sep cs
    if c = sep then ([] :: p.1, p.2)
    else
      match p.1 with
      | [] => ([], c :: p.2)
      | r :: rs => ((c :: r) :: rs, p.2)

/-- Model of Python `s.split(sep)` for a one-character separator: all
segments, including the final one. -/
def splitAll (sep : Char) (s : List Char) : List (List Char) :=
  (drain sep s).1 ++ [(drain sep s).2]

/-- The rich-logs branch of `WorkerProcess.log` (`processtypes.py` lines
148-172): append the chunk to the accumulation buffer, then repeatedly split
off the text before the next record separator and process it as one record.
`processRecord` never reads or writes `_log_data`, so peeling all complete
records off first and then folding over them is the same iteration as the
`while` loop; on the first record that raises, the exception escapes. -/
def richProcess (st : WorkerProcess) (text : List Char) : Except PyErr WorkerProcess :=
  let p := drain record_separator (st._log_data ++ text)
  List.foldlM processRecord { st with _log_data := p.2 } p.1

/-- One row of the plain-text branch (`processtypes.py` lines 178-188):
strip, skip empty rows, emit, append, publish when a topic is configured. -/
def plainRow (st : WorkerProcess) (row : List Char) : WorkerProcess :=
  let r := pyStrip row
  if r = [] then st
  else
    let st1 := { st with
      emitted := st.emitted ++ [.info r (logSystem st.logname st.pid) none],
      _log_entries := dequeAppend st._log_entries (.str r) }
    if st1._log_topic = [] then st1
    else { st1 with published := st1.published ++ [(st1._log_topic, JValue.str r)] }

/-- The plain-text branch of `WorkerProcess.log` (`processtypes.py` lines
174-188): sanitize the whole chunk, split on the platform line terminator and
process each row. -/
def plainProcess (st : WorkerProcess) (data : List Char) : WorkerProcess :=
  (splitAll os_linesep (escape_formatting data)).foldl plainRow st

/-- Model of `WorkerProcess.log(childFD, data)` (`processtypes.py` lines
118-188), the sole ingestion entry point.  `data` arrives as bytes.  The
raw channel is FD 1; the cooperative channel is FD 2 (decoded as strict
UTF-8).  The first cooperative chunk decides `_log_rich` by comparing the
chunk's prefix with the protocol marker; on a match the method returns with
the whole chunk consumed and an empty accumulation buffer, otherwise the full
chunk is reprocessed as plain text. -/
def WorkerProcess.log (st : WorkerProcess) (childFD : Nat) (data : List Nat) :
    Except PyErr WorkerProcess :=
  if childFD = 1 ∨ childFD = 2 then
    if childFD = 1 then
      let r := reprBytes data
      .ok { st with
        emitted := st.emitted ++
          [.info r (logSystem st.logname st.pid) (some (("FD1").toList))],
        _log_entries := dequeAppend st._log_entries (.str r) }
    else
      match utf8Decode data with
      | none => .error .unicodeDecodeError
      | some text =>
        match st._log_rich with
        | none =>
          if text.take cb_logging_aware.length = cb_logging_aware then
            .ok { st with _log_rich := some true, _log_data := [] }
          else
            .ok (plainProcess { st with _log_rich := some false } text)
        | some true => richProcess st text
        | some false => .ok (plainProcess st text)
  else .error .assertionError

/-- Model of `WorkerProcess.getlog`: a snapshot copy of the history buffer,
oldest first. -/
def WorkerProcess.getlog (st : WorkerProcess) : List Entry := st._log_entries

/-- Model of `WorkerProcess._dump_remaining_log` (`processtypes.py` lines
104-116): when the worker spoke rich logs and the accumulation buffer is
non-empty, warn a header line and then one warning per newline-delimited
segment of the raw remainder.  Only the sink is touched. -/
def WorkerProcess._dump_remaining_log (st : WorkerProcess) : WorkerProcess :=
  if st._log_rich = some true ∧ st._log_data ≠ [] then
    let st1 := { st with emitted := st.emitted ++
      [.warn ((("REMAINING LOG BUFFER AFTER EXIT FOR PID ").toList) ++
              pidStr st.pid ++ [':'])] }
    (splitAll os_linesep st._log_data).foldl
      (fun s l => { s with emitted := s.emitted ++ [.warn (escape_formatting l)] }) st1
  else st

/-- The exit notification: the `exit` Deferred created in `__init__`
(`processtypes.py` lines 97-99) has `_dump_remaining_log` attached via
`addBoth`; a Deferred runs its callback chain at most once, so a second
notification does not run the dump again. -/
def WorkerProcess.notifyExit (st : WorkerProcess) : WorkerProcess :=
  if st.exit_fired then st
  else WorkerProcess._dump_remaining_log { st with exit_fired := true }

/-- The state `WorkerProcess.__init__` sets up (`processtypes.py` lines
58-99): status `"starting"`, no pid yet, a ten-entry history deque, the
per-worker notification topic, undecided protocol mode. -/
def initWorker (node_id wid : List Char) : WorkerProcess :=
  { status := ("starting").toList
    pid := none
    logname := ("Worker").toList
    _log_rich := none
    _log_data := []
    _log_entries := []
    _log_topic := (("crossbar.node.").toList) ++ node_id ++
                  ((".worker.").toList) ++ wid ++ ((".on_log").toList)
    exit_fired := false
    emitted := []
    published := [] }

/-- Feeding a sequence of byte chunks to `log` on the cooperative channel,
in arrival order; the first chunk that raises aborts the sequence. -/
def processChunks (st : WorkerProcess) (cs : List (List Nat)) :
    Except PyErr WorkerProcess :=
  cs.foldlM (fun s c => WorkerProcess.log s 2 c) st

/-- Replace the worker status, leaving everything else unchanged. -/
def setStatus (st : WorkerProcess) (s : List Char) : WorkerProcess :=
  { st with status := s }

/-- Replace the accumulation buffer, leaving everything else unchanged. -/
def setLogData (st : WorkerProcess) (d : List Char) : WorkerProcess :=
  { st with _log_data := d }

/-- Concatenation of separator-terminated records. -/
def joinRecords (sep : Char) (rs : List (List Char)) : List Char :=
  (rs.map (fun r => r ++ [sep])).flatten

/-- The sink emission a successfully decoded record produces in a state with
the given label and pid (the fallback branch is never reached when the record
decodes). -/
def emissionFor (st : WorkerProcess) (r : List Char) : Emission :=
  match decodeRecord r with
  | .ok ev => .emit ev.level ev.text (logSystem st.logname st.pid) ev.cb_namespace ev.extra
  | .error _ => .warn []

/-- The last `n` elements of a list. -/
def lastN (n : Nat) (l : List Entry) : List Entry := l.drop (l.length - n)

/-- A freshly constructed worker used as concrete test input. -/
def w0 : WorkerProcess := initWorker (("n1").toList) (("w1").toList)

/-- The same worker already in rich-logging mode. -/
def richW : WorkerProcess := { w0 with _log_rich := some true }

/-- Byte string `b"hello"`. -/
def helloBytes : List Nat := ("hello").toList.map Char.toNat

/-- A worker whose status has been driven to `exited` (the transition itself
is made by the node controller, outside this module). -/
def c1st : WorkerProcess := { w0 with status := ("exited").toList, exit_fired := true }

/-- A first cooperative chunk carrying the protocol marker plus one more
character of content. -/
def c3bytes : List Nat := (cb_logging_aware ++ ("x").toList).map Char.toNat

/-- A well-formed JSON object that lacks the required `text` key. -/
def c4rec : List Char := ("\x7b\"level\":\"info\",\"foo\":\"bar\"\x7d").toList

/-- A well-formed record with one extra key. -/
def c7rec : List Char := ("\x7b\"text\":\"hi\",\"level\":\"info\",\"a\":\"b\"\x7d").toList

/-- A well-formed record whose level name is not a severity name. -/
def c9rec : List Char := ("\x7b\"text\":\"hi\",\"level\":\"bogus\"\x7d").toList

/-- First structured record for the chunk-splitting witness. -/
def c2r1 : List Char := ("\x7b\"text\":\"a\",\"level\":\"info\"\x7d").toList

/-- Second structured record for the chunk-splitting witness. -/
def c2r2 : List Char := ("\x7b\"text\":\"b\",\"level\":\"warn\"\x7d").toList

/-- Trailing fragment left in the buffer by the chunk-splitting witness. -/
def c2tail : List Char := ("\x7b\"te").toList

/-- First witness chunk: record one, a separator, and part of record two. -/
def c2chunk1 : List Nat :=
  (c2r1 ++ [record_separator] ++ ("\x7b\"text\":\"b\",").toList).map Char.toNat

/-- Second witness chunk: the rest of record two, a separator, and the
trailing fragment. -/
def c2chunk2 : List Nat :=
  ((("\"level\":\"warn\"\x7d").toList) ++ [record_separator] ++ c2tail).map Char.toNat

/-- A record containing a two-byte UTF-8 character. -/
def cxRecord : List Char := ("\x7b\"text\":\"é\",\"level\":\"info\"\x7d").toList

/-- First half of a byte split through the middle of that character. -/
def cxA : List Nat := ("\x7b\"text\":\"").toList.map Char.toNat ++ [0xC3]

/-- Second half of the split. -/
def cxB : List Nat :=
  [0xA9] ++ ("\",\"level\":\"info\"\x7d").toList.map Char.toNat ++ [0x1E]

/-- A rich-mode worker with an unterminated fragment still buffered. -/
def c5st : WorkerProcess := { richW with _log_data := ("partial").toList }

/-- Eleven distinct history entries. -/
def c6entries : List Entry := (List.range 11).map (fun i => Entry.str (Nat.toDigits 10 i))

/-! ## Lemmas about `drain` -/

theorem drain_no_sep {sep : Char} : ∀ {s : List Char}, sep ∉ s → drain sep s = ([], s)
  | [], _ => rfl
  | c :: cs, h => by
    have hc : ¬ c = sep := fun e => h (e ▸ List.mem_cons_self c cs)
    have ih := drain_no_sep (s := cs) (fun m => h (List.mem_cons_of_mem c m))
    simp [drain, ih, hc]

theorem drain_cons {sep : Char} (r t : List Char) (h : sep ∉ r) :
    drain sep (r ++ sep :: t) = (r :: (drain sep t).1, (drain sep t).2) := by
  induction r with
  | nil => simp [drain]
  | cons c r ih =>
    have hc : ¬ c = sep := fun e => h (by simp [e])
    have hr : sep ∉ r := fun m => h (by simp [m])
    rw [List.cons_append]
    simp only [drain, List.append_eq, ih hr, if_neg hc]

theorem drain_decomp (sep : Char) (s : List Char) :
    joinRecords sep (drain sep s).1 ++ (drain sep s).2 = s ∧
    (∀ r ∈ (drain sep s).1, sep ∉ r) ∧ sep ∉ (drain sep s).2 := by
  induction s with
  | nil => exact ⟨rfl, by simp [drain], by simp [drain]⟩
  | cons c cs ih =>
    obtain ⟨ih1, ih2, ih3⟩ := ih
    by_cases hc : c = sep
    · subst hc
      refine ⟨?_, ?_, ?_⟩
      · simp only [drain, if_pos rfl]
        simpa [joinRecords] using ih1
      · simp only [drain, if_pos rfl]
        intro r hr
        rcases List.mem_cons.1 hr with h1 | h1
        · subst h1; simp
        · exact ih2 r h1
      · simpa only [drain, if_pos rfl] using ih3
    · rcases hp : (drain sep cs).1 with _ | ⟨r, rs⟩
      · rw [hp] at ih1
        refine ⟨?_, ?_, ?_⟩
        · simp only [drain, if_neg hc, hp]
          simp only [joinRecords, List.map_nil, List.flatten_nil, List.nil_append] at ih1 ⊢
          rw [ih1]
        · simp only [drain, if_neg hc, hp]
          intro r hr
          exact absurd hr (List.not_mem_nil r)
        · simp only [drain, if_neg hc, hp]
          intro hm
          rcases List.mem_cons.1 hm with h1 | h1
          · exact hc h1.symm
          · exact ih3 h1
      · rw [hp] at ih1
        refine ⟨?_, ?_, ?_⟩
        · simp only [drain, if_neg hc, hp]
          have h2 := congrArg (List.cons c) ih1
          simpa [joinRecords, List.append_assoc] using h2
        · simp only [drain, if_neg hc, hp]
          intro x hx
          rcases List.mem_cons.1 hx with h1 | h1
          · subst h1
            intro hm
            rcases List.mem_cons.1 hm with h2 | h2
            · exact hc h2.symm
            · exact ih2 r (by rw [hp]; exact List.mem_cons_self r rs) h2
          · exact ih2 x (by rw [hp]; exact List.mem_cons_of_mem r h1)
        · simpa only [drain, if_neg hc, hp] using ih3

theorem drain_join {sep : Char} :
    ∀ (rs : List (List Char)) (x : List Char), (∀ r ∈ rs, sep ∉ r) →
      drain sep (joinRecords sep rs ++ x) = (rs ++ (drain sep x).1, (drain sep x).2)
  | [], x, _ => by simp [joinRecords]
  | r :: rs, x, h => by
    have hr : sep ∉ r := h r (List.mem_cons_self r rs)
    have ih := drain_join rs x (fun a ha => h a (List.mem_cons_of_mem r ha))
    have he : joinRecords sep (r :: rs) ++ x = r ++ sep :: (joinRecords sep rs ++ x) := by
      simp [joinRecords]
    rw [he, drain_cons r _ hr, ih]
    rfl

theorem drain_append {sep : Char} (s x : List Char) :
    drain sep (s ++ x) =
      ((drain sep s).1 ++ (drain sep ((drain sep s).2 ++ x)).1,
       (drain sep ((drain sep s).2 ++ x)).2) := by
  obtain ⟨h1, h2, _⟩ := drain_decomp sep s
  conv_lhs => rw [← h1]
  rw [List.append_assoc, drain_join _ _ h2]

/-! ## Degraded decoding of malformed records -/

/-- A record that is not well-formed JSON always decodes to the degraded
warning event built at `processtypes.py` lines 161-162. -/
theorem decodeRecord_degraded (log : List Char) (h : json_loads log = none) :
    decodeRecord log = .ok ⟨LogLevel.warn,
      JValue.str ((("INVALID JSON: ").toList) ++ escape_formatting log), none, []⟩ := by
  unfold decodeRecord
  rw [h]
  rfl

/-! ## Claim C4 -/

/-- Claim C4 counterexample: the record `c4rec` is well-formed JSON but lacks
the required `text` key, and the decoder raises `KeyError` on it instead of
synthesizing a degraded event — refuting the claim that a record missing
`text`/`level` never raises. -/
theorem C4_counterexample :
    (json_loads c4rec).isSome = true ∧
    decodeRecord c4rec = .error (.keyError (("text").toList)) := ⟨rfl, rfl⟩

/-- Claim C4 (amended): for every raw record that is not well-formed JSON the
decoder never raises: it synthesizes a degraded event with level warn whose
text is "INVALID JSON: " followed by a control-character-escaped copy of the
raw record.  (A well-formed record missing `text` or `level` raises a hard
`KeyError` instead — see the counterexample.) -/
theorem C4_degraded (log : List Char) (h : json_loads log = none) :
    decodeRecord log = .ok ⟨LogLevel.warn,
      JValue.str ((("INVALID JSON: ").toList) ++ escape_formatting log), none, []⟩ :=
  decodeRecord_degraded log h

/-- Witness for C4 at the concrete malformed record "not json". -/
theorem C4_witness :
    decodeRecord (("not json").toList) = .ok ⟨LogLevel.warn,
      JValue.str ((("INVALID JSON: ").toList) ++ escape_formatting (("not json").toList)),
      none, []⟩ :=
  C4_degraded (("not json").toList) rfl

/-! ## Claim C10 -/

/-- Claim C10: a chunk on the raw channel FD 1, in any mode and with any
content, is appended as exactly one opaque `repr` entry and emitted to the
sink; the record literal shows that it is never split, never published, and
that `_log_rich` and `_log_data` are untouched. -/
theorem C10_raw_channel (st : WorkerProcess) (data : List Nat) :
    WorkerProcess.log st 1 data = .ok { st with
      emitted := st.emitted ++
        [.info (reprBytes data) (logSystem st.logname st.pid) (some (("FD1").toList))],
      _log_entries := dequeAppend st._log_entries (.str (reprBytes data)) } := rfl

/-! ## Claim C8 -/

/-- Claim C8 counterexample: the invalid byte 0xFF on the cooperative channel
makes `log` raise `UnicodeDecodeError` — there is no best-effort substitution,
refuting the claim that decoding failures never propagate. -/
theorem C8_counterexample :
    utf8Decode [0xFF] = none ∧
    WorkerProcess.log w0 2 [0xFF] = .error .unicodeDecodeError := ⟨rfl, rfl⟩

/-- Claim C8 (amended): the cooperative channel is decoded with strict UTF-8
(`data.decode('utf8')`); an undecodable byte sequence raises
`UnicodeDecodeError` to the caller of `log` and the chunk is not processed. -/
theorem C8_strict_decode (st : WorkerProcess) (data : List Nat)
    (h : utf8Decode data = none) :
    WorkerProcess.log st 2 data = .error .unicodeDecodeError := by
  simp [WorkerProcess.log, h]

/-- Witness for C8 at the concrete byte 0xFF. -/
theorem C8_witness :
    WorkerProcess.log richW 2 [0xFF] = .error .unicodeDecodeError :=
  C8_strict_decode richW [0xFF] rfl

/-! ## Claim C7 -/

/-- Claim C7 counterexample: after processing the record
`(lbrace)"text":"hi","level":"info","a":"b"(rbrace)` the history buffer holds
only the residual dict `[("a","b")]`, which carries neither the `text` nor the
`level` key — refuting the claim that the buffered entry carries the record's
level and text. -/
theorem C7_counterexample :
    Except.map WorkerProcess.getlog (processRecord w0 c7rec) =
      .ok [Entry.obj [((("a").toList), JValue.str (("b").toList))]] ∧
    popKey (("text").toList) [((("a").toList), JValue.str (("b").toList))] = none ∧
    popKey (("level").toList) [((("a").toList), JValue.str (("b").toList))] = none :=
  ⟨rfl, rfl, rfl⟩

/-- Claim C7 (amended): a successfully decoded record is emitted to the sink
with its level, text, namespace and extras, the entry appended to the history
buffer is the residual extras dict (the record minus `text`, `level` and
`namespace`, which `pop` removed), and the payload published to the topic is
exactly the human text field. -/
theorem C7_residual_entry (st : WorkerProcess) (r : List Char) (ev : RichEvent)
    (h : decodeRecord r = .ok ev) (htopic : st._log_topic ≠ []) :
    processRecord st r = .ok { st with
      emitted := st.emitted ++
        [.emit ev.level ev.text (logSystem st.logname st.pid) ev.cb_namespace ev.extra],
      _log_entries := dequeAppend st._log_entries (.obj ev.extra),
      published := st.published ++ [(st._log_topic, ev.text)] } := by
  cases st
  simp_all [processRecord]

/-- Witness for C7 at the concrete record `c7rec` in state `w0`. -/
theorem C7_witness :
    processRecord w0 c7rec = .ok { w0 with
      emitted := w0.emitted ++
        [.emit LogLevel.info (JValue.str (("hi").toList)) (logSystem w0.logname w0.pid)
          none [((("a").toList), JValue.str (("b").toList))]],
      _log_entries := dequeAppend w0._log_entries
        (.obj [((("a").toList), JValue.str (("b").toList))]),
      published := w0.published ++ [(w0._log_topic, JValue.str (("hi").toList))] } :=
  C7_residual_entry w0 c7rec
    ⟨LogLevel.info, JValue.str (("hi").toList), none,
     [((("a").toList), JValue.str (("b").toList))]⟩ rfl (by decide)

/-! ## Claim C9 -/

/-- Claim C9: a well-formed structured record whose `level` value does not
resolve against the fixed finite set of severity names is a hard decode
error surfaced to the caller of `log` — in contrast to the malformed-record
path, which always degrades instead of failing (third conjunct). -/
theorem C9_unresolvable_level (st : WorkerProcess) (data : List Nat) (r : List Char)
    (fields f1 f3 : List (List Char × JValue)) (tv lv : JValue)
    (hp : json_loads r = some (JValue.obj fields))
    (ht : popKey (("text").toList) fields = some (tv, f1))
    (hl : popKey (("level").toList) (popNamespace f1) = some (lv, f3))
    (hres : levelWithName lv = none)
    (hrich : st._log_rich = some true)
    (hbuf : st._log_data = [])
    (hdec : utf8Decode data = some (r ++ [record_separator]))
    (hnosep : record_separator ∉ r) :
    decodeRecord r = .error (.invalidLogLevel lv) ∧
    WorkerProcess.log st 2 data = .error (.invalidLogLevel lv) ∧
    (∀ s, json_loads s = none → ∃ ev, decodeRecord s = .ok ev) := by
  have hrec : decodeRecord r = .error (.invalidLogLevel lv) := by
    unfold decodeRecord
    rw [hp]
    simp only [ht, hl, hres]
  refine ⟨hrec, ?_, fun s hs => ⟨_, decodeRecord_degraded s hs⟩⟩
  have hd : drain record_separator (r ++ [record_separator]) = ([r], []) := by
    simpa [drain] using drain_cons r [] hnosep
  simp only [WorkerProcess.log, hdec, hrich]
  simp only [richProcess, hbuf, List.nil_append, hd]
  simp [List.foldlM, processRecord, hrec]

/-- Witness for C9 at the concrete record `c9rec` with level name "bogus". -/
theorem C9_witness :
    decodeRecord c9rec = .error (.invalidLogLevel (JValue.str (("bogus").toList))) ∧
    WorkerProcess.log richW 2 ((c9rec ++ [record_separator]).map Char.toNat) =
      .error (.invalidLogLevel (JValue.str (("bogus").toList))) ∧
    (∀ s, json_loads s = none → ∃ ev, decodeRecord s = .ok ev) :=
  C9_unresolvable_level richW ((c9rec ++ [record_separator]).map Char.toNat) c9rec
    [((("text").toList), JValue.str (("hi").toList)),
     ((("level").toList), JValue.str (("bogus").toList))]
    [((("level").toList), JValue.str (("bogus").toList))] []
    (JValue.str (("hi").toList)) (JValue.str (("bogus").toList))
    rfl rfl rfl rfl rfl rfl rfl (by decide)

/-! ## Claim C5 -/

theorem foldl_warn_emitted (l : List (List Char)) (st : WorkerProcess) :
    l.foldl (fun s x => { s with emitted := s.emitted ++ [.warn (escape_formatting x)] }) st =
    { st with emitted := st.emitted ++ l.map (fun x => Emission.warn (escape_formatting x)) } := by
  induction l generalizing st with
  | nil => cases st; simp
  | cons x xs ih =>
    rw [List.foldl_cons, ih]
    cases st
    simp

/-- Claim C5: on the transition into exited, exactly once: a rich-mode worker
with a non-empty accumulation buffer flushes it to the sink only — a header
warning plus one warning per newline-delimited segment of the raw remainder,
not JSON-parsed — while the history buffer and published list are untouched
(visible in the record literal); a second exit notification has no further
effect (second conjunct). -/
theorem C5_exit_flush (st : WorkerProcess)
    (hrich : st._log_rich = some true) (hne : st._log_data ≠ [])
    (hnf : st.exit_fired = false) :
    WorkerProcess.notifyExit st = { st with
      exit_fired := true,
      emitted := st.emitted ++
        Emission.warn ((("REMAINING LOG BUFFER AFTER EXIT FOR PID ").toList) ++
          pidStr st.pid ++ [':']) ::
        (splitAll os_linesep st._log_data).map (fun l => Emission.warn (escape_formatting l)) } ∧
    WorkerProcess.notifyExit (WorkerProcess.notifyExit st) = WorkerProcess.notifyExit st := by
  have hmain : WorkerProcess.notifyExit st = { st with
      exit_fired := true,
      emitted := st.emitted ++
        Emission.warn ((("REMAINING LOG BUFFER AFTER EXIT FOR PID ").toList) ++
          pidStr st.pid ++ [':']) ::
        (splitAll os_linesep st._log_data).map (fun l => Emission.warn (escape_formatting l)) } := by
    simp only [WorkerProcess.notifyExit, hnf]
    simp only [Bool.false_eq_true, if_false]
    unfold WorkerProcess._dump_remaining_log
    rw [if_pos ⟨hrich, hne⟩]
    rw [foldl_warn_emitted]
    cases st
    simp
  refine ⟨hmain, ?_⟩
  rw [hmain]
  simp [WorkerProcess.notifyExit]

/-- Witness for C5 at the concrete worker `c5st` with buffered fragment
"partial". -/
theorem C5_witness :
    WorkerProcess.notifyExit c5st = { c5st with
      exit_fired := true,
      emitted := c5st.emitted ++
        Emission.warn ((("REMAINING LOG BUFFER AFTER EXIT FOR PID ").toList) ++
          pidStr c5st.pid ++ [':']) ::
        (splitAll os_linesep c5st._log_data).map
          (fun l => Emission.warn (escape_formatting l)) } ∧
    WorkerProcess.notifyExit (WorkerProcess.notifyExit c5st) = WorkerProcess.notifyExit c5st :=
  C5_exit_flush c5st rfl (by decide) rfl

/-! ## Claim C6 -/

theorem dequeAppend_eq_lastN (b : List Entry) (e : Entry) :
    dequeAppend b e = lastN 10 (b ++ [e]) := rfl

theorem dequeAppend_length_le (b : List Entry) (e : Entry) :
    (dequeAppend b e).length ≤ 10 := by
  simp [dequeAppend]
  omega

theorem lastN_absorb (x y : List Entry) :
    lastN 10 (lastN 10 x ++ y) = lastN 10 (x ++ y) := by
  unfold lastN
  rcases le_or_lt x.length 10 with h | h
  · have h0 : x.length - 10 = 0 := by omega
    simp [h0]
  · have hk : x.length - 10 ≤ x.length := by omega
    rw [← List.drop_append_of_le_length hk, List.drop_drop]
    congr 1
    simp only [List.length_append, List.length_drop]
    omega

theorem foldl_dequeAppend (es : List Entry) : ∀ (b : List Entry), b.length ≤ 10 →
    es.foldl dequeAppend b = lastN 10 (b ++ es) := by
  induction es with
  | nil =>
    intro b hb
    have h0 : b.length - 10 = 0 := by omega
    simp [lastN, h0]
  | cons e es ih =>
    intro b hb
    rw [List.foldl_cons, ih _ (dequeAppend_length_le b e), dequeAppend_eq_lastN, lastN_absorb]
    simp

/-- Claim C6: the history buffer has capacity 10 with FIFO eviction: after 11
appends to an empty buffer, `getlog` returns exactly 10 entries, the oldest
evicted and order preserved; a snapshot read is an independent copy — the
earlier snapshot value (third conjunct) is unaffected by the appends. -/
theorem C6_fifo (st : WorkerProcess) (es : List Entry)
    (h0 : st._log_entries = []) (hlen : es.length = 11) :
    WorkerProcess.getlog
      (es.foldl (fun s e => { s with _log_entries := dequeAppend s._log_entries e }) st) =
      es.drop 1 ∧
    (es.drop 1).length = 10 ∧
    WorkerProcess.getlog st = [] := by
  have hfold : ∀ (l : List Entry) (s : WorkerProcess),
      (l.foldl (fun s e => { s with _log_entries := dequeAppend s._log_entries e }) s)._log_entries
        = l.foldl dequeAppend s._log_entries := by
    intro l
    induction l with
    | nil => intro s; rfl
    | cons e l ih => intro s; rw [List.foldl_cons, List.foldl_cons, ih]
  refine ⟨?_, by rw [List.length_drop, hlen], by simp [WorkerProcess.getlog, h0]⟩
  show (es.foldl (fun s e => { s with _log_entries := dequeAppend s._log_entries e }) st)._log_entries = _
  rw [hfold, h0, foldl_dequeAppend es [] (by simp), lastN]
  simp [hlen]

/-- Witness for C6: eleven concrete entries. -/
theorem C6_witness :
    WorkerProcess.getlog
      (c6entries.foldl (fun s e => { s with _log_entries := dequeAppend s._log_entries e }) w0) =
      c6entries.drop 1 ∧
    (c6entries.drop 1).length = 10 ∧
    WorkerProcess.getlog w0 = [] :=
  C6_fifo w0 c6entries rfl rfl

/-! ## Frame lemmas: which fields each operation can touch -/

theorem plainRow_frame (st : WorkerProcess) (row : List Char) :
    (plainRow st row).status = st.status ∧ (plainRow st row).pid = st.pid ∧
    (plainRow st row).logname = st.logname ∧ (plainRow st row)._log_rich = st._log_rich ∧
    (plainRow st row)._log_data = st._log_data ∧
    (plainRow st row)._log_topic = st._log_topic ∧
    (plainRow st row).exit_fired = st.exit_fired := by
  unfold plainRow
  dsimp only
  split_ifs <;> exact ⟨rfl, rfl, rfl, rfl, rfl, rfl, rfl⟩

theorem foldl_plainRow_frame (l : List (List Char)) : ∀ (st : WorkerProcess),
    (l.foldl plainRow st).status = st.status ∧ (l.foldl plainRow st).pid = st.pid ∧
    (l.foldl plainRow st).logname = st.logname ∧
    (l.foldl plainRow st)._log_rich = st._log_rich ∧
    (l.foldl plainRow st)._log_data = st._log_data ∧
    (l.foldl plainRow st)._log_topic = st._log_topic ∧
    (l.foldl plainRow st).exit_fired = st.exit_fired := by
  induction l with
  | nil => exact fun st => ⟨rfl, rfl, rfl, rfl, rfl, rfl, rfl⟩
  | cons row l ih =>
    intro st
    obtain ⟨i1, i2, i3, i4, i5, i6, i7⟩ := ih (plainRow st row)
    obtain ⟨p1, p2, p3, p4, p5, p6, p7⟩ := plainRow_frame st row
    rw [List.foldl_cons]
    exact ⟨i1.trans p1, i2.trans p2, i3.trans p3, i4.trans p4, i5.trans p5,
           i6.trans p6, i7.trans p7⟩

theorem plainProcess_frame (st : WorkerProcess) (d : List Char) :
    (plainProcess st d).status = st.status ∧ (plainProcess st d).pid = st.pid ∧
    (plainProcess st d).logname = st.logname ∧
    (plainProcess st d)._log_rich = st._log_rich ∧
    (plainProcess st d)._log_data = st._log_data ∧
    (plainProcess st d)._log_topic = st._log_topic ∧
    (plainProcess st d).exit_fired = st.exit_fired :=
  foldl_plainRow_frame _ st

theorem processRecord_frame {st st2 : WorkerProcess} {r : List Char}
    (h : processRecord st r = .ok st2) :
    st2.status = st.status ∧ st2.pid = st.pid ∧ st2.logname = st.logname ∧
    st2._log_rich = st._log_rich ∧ st2._log_data = st._log_data ∧
    st2._log_topic = st._log_topic ∧ st2.exit_fired = st.exit_fired := by
  unfold processRecord at h
  cases hd : decodeRecord r with
  | error e => rw [hd] at h; exact absurd h (by simp)
  | ok ev =>
    rw [hd] at h
    dsimp only at h
    split_ifs at h <;>
      (simp only [Except.ok.injEq] at h; subst h; exact ⟨rfl, rfl, rfl, rfl, rfl, rfl, rfl⟩)

theorem foldlM_processRecord_frame (rs : List (List Char)) : ∀ {st st2 : WorkerProcess},
    List.foldlM processRecord st rs = .ok st2 →
    st2.status = st.status ∧ st2.pid = st.pid ∧ st2.logname = st.logname ∧
    st2._log_rich = st._log_rich ∧ st2._log_data = st._log_data ∧
    st2._log_topic = st._log_topic ∧ st2.exit_fired = st.exit_fired := by
  induction rs with
  | nil =>
    intro st st2 h
    simp only [List.foldlM_nil] at h
    cases h
    exact ⟨rfl, rfl, rfl, rfl, rfl, rfl, rfl⟩
  | cons r rs ih =>
    intro st st2 h
    rw [List.foldlM_cons] at h
    cases hp : processRecord st r with
    | error e => rw [hp] at h; exact Except.noConfusion h
    | ok s1 =>
      rw [hp] at h
      obtain ⟨i1, i2, i3, i4, i5, i6, i7⟩ := ih h
      obtain ⟨p1, p2, p3, p4, p5, p6, p7⟩ := processRecord_frame hp
      exact ⟨i1.trans p1, i2.trans p2, i3.trans p3, i4.trans p4, i5.trans p5,
             i6.trans p6, i7.trans p7⟩

theorem richProcess_frame {st st2 : WorkerProcess} {t : List Char}
    (h : richProcess st t = .ok st2) :
    st2.status = st.status ∧ st2.pid = st.pid ∧ st2.logname = st.logname ∧
    st2._log_rich = st._log_rich ∧ st2._log_topic = st._log_topic ∧
    st2.exit_fired = st.exit_fired ∧ record_separator ∉ st2._log_data := by
  unfold richProcess at h
  obtain ⟨i1, i2, i3, i4, i5, i6, i7⟩ := foldlM_processRecord_frame _ h
  refine ⟨i1, i2, i3, i4, i6, i7, ?_⟩
  rw [i5]
  exact (drain_decomp _ _).2.2

/-! ## Claim C1 -/

/-- Claim C1 counterexample: a worker whose status is `exited` still has its
`log` call fully processed — the chunk is decoded, appended to the history
buffer and published, refuting "accepted without error and has no further
effect". -/
theorem C1_counterexample :
    c1st.status = ("exited").toList ∧
    WorkerProcess.getlog c1st = [] ∧
    Except.map WorkerProcess.getlog (WorkerProcess.log c1st 2 helloBytes) =
      .ok [Entry.str (("hello").toList)] ∧
    Except.map (fun st => st.published.length) (WorkerProcess.log c1st 2 helloBytes) =
      .ok 1 :=
  ⟨rfl, rfl, rfl, rfl⟩

theorem plainRow_setStatus (st : WorkerProcess) (s : List Char) (row : List Char) :
    plainRow (setStatus st s) row = setStatus (plainRow st row) s := by
  cases st
  unfold plainRow setStatus
  dsimp only
  split_ifs <;> rfl

theorem foldl_plainRow_setStatus (l : List (List Char)) :
    ∀ (st : WorkerProcess) (s : List Char),
      l.foldl plainRow (setStatus st s) = setStatus (l.foldl plainRow st) s := by
  induction l with
  | nil => intro st s; rfl
  | cons row l ih =>
    intro st s
    rw [List.foldl_cons, List.foldl_cons, plainRow_setStatus, ih]

theorem plainProcess_setStatus (st : WorkerProcess) (s : List Char) (d : List Char) :
    plainProcess (setStatus st s) d = setStatus (plainProcess st d) s :=
  foldl_plainRow_setStatus _ st s

theorem processRecord_setStatus (st : WorkerProcess) (s : List Char) (r : List Char) :
    processRecord (setStatus st s) r =
      Except.map (fun x => setStatus x s) (processRecord st r) := by
  cases st
  unfold processRecord setStatus
  cases decodeRecord r with
  | error e => rfl
  | ok ev =>
    dsimp only
    split_ifs <;> rfl

theorem foldlM_processRecord_setStatus (rs : List (List Char)) :
    ∀ (st : WorkerProcess) (s : List Char),
      List.foldlM processRecord (setStatus st s) rs =
        Except.map (fun x => setStatus x s) (List.foldlM processRecord st rs) := by
  induction rs with
  | nil => intro st s; rfl
  | cons r rs ih =>
    intro st s
    rw [List.foldlM_cons, List.foldlM_cons, processRecord_setStatus]
    cases hp : processRecord st r with
    | error e => rfl
    | ok s1 => exact ih s1 s

theorem richProcess_setStatus (st : WorkerProcess) (s : List Char) (t : List Char) :
    richProcess (setStatus st s) t =
      Except.map (fun x => setStatus x s) (richProcess st t) := by
  unfold richProcess
  exact foldlM_processRecord_setStatus _
    { st with _log_data := (drain record_separator (st._log_data ++ t)).2 } s

/-- Claim C1 (amended): `WorkerProcess.log` never reads or writes the worker
status — its behavior in any status, `exited` included, is identical to its
behavior in any other status, so post-exit input is still decoded, buffered
and published exactly as before the transition. -/
theorem C1_status_independent (st : WorkerProcess) (s : List Char) (childFD : Nat)
    (data : List Nat) :
    WorkerProcess.log (setStatus st s) childFD data =
      Except.map (fun x => setStatus x s) (WorkerProcess.log st childFD data) := by
  unfold WorkerProcess.log
  by_cases h1 : childFD = 1 ∨ childFD = 2
  · rw [if_pos h1, if_pos h1]
    by_cases h2 : childFD = 1
    · rw [if_pos h2, if_pos h2]
      cases st
      rfl
    · rw [if_neg h2, if_neg h2]
      cases hu : utf8Decode data with
      | none => rfl
      | some text =>
        have hsr : (setStatus st s)._log_rich = st._log_rich := rfl
        cases hr : st._log_rich with
        | none =>
          simp only [hsr, hr]
          by_cases hm : text.take cb_logging_aware.length = cb_logging_aware
          · rw [if_pos hm, if_pos hm]
            cases st
            rfl
          · rw [if_neg hm, if_neg hm]
            have he : setStatus { st with _log_rich := some false } s =
                { setStatus st s with _log_rich := some false } := by
              cases st; rfl
            rw [← he, plainProcess_setStatus]
            rfl
        | some b =>
          simp only [hsr, hr]
          cases b with
          | true => exact richProcess_setStatus st s text
          | false => rw [plainProcess_setStatus]; rfl
  · rw [if_neg h1, if_neg h1]
    rfl

/-! ## Claim C3 -/

/-- Claim C3 counterexample: a first chunk consisting of the protocol marker
followed by one more character switches the worker to Structured mode but
leaves the accumulation buffer empty — the content after the marker is
discarded along with it, refuting "only the marker is discarded". -/
theorem C3_counterexample :
    w0._log_rich = none ∧
    utf8Decode c3bytes = some (cb_logging_aware ++ ("x").toList) ∧
    WorkerProcess.log w0 2 c3bytes =
      .ok { w0 with _log_rich := some true, _log_data := [] } ∧
    ("x").toList ≠ [] :=
  ⟨rfl, rfl, rfl, by decide⟩

/-- Claim C3 (amended): on the first cooperative chunk, a chunk whose prefix
equals the protocol marker sets mode Structured and the entire chunk is
discarded (nothing is buffered, emitted or published — first conjunct);
otherwise mode becomes PlainText and the full chunk is reprocessed as plain
text with no bytes lost (second conjunct); a chunk strictly shorter than the
marker — such as either half of a marker split across two chunks — can never
match (third conjunct); once decided, the mode never changes (fourth
conjunct). -/
theorem C3_detection (st : WorkerProcess) (data : List Nat) (text : List Char)
    (hdec : utf8Decode data = some text) :
    (st._log_rich = none → text.take cb_logging_aware.length = cb_logging_aware →
      WorkerProcess.log st 2 data = .ok { st with _log_rich := some true, _log_data := [] }) ∧
    (st._log_rich = none → text.take cb_logging_aware.length ≠ cb_logging_aware →
      WorkerProcess.log st 2 data = .ok (plainProcess { st with _log_rich := some false } text)) ∧
    (text.length < cb_logging_aware.length →
      text.take cb_logging_aware.length ≠ cb_logging_aware) ∧
    (∀ b st2, st._log_rich = some b → WorkerProcess.log st 2 data = .ok st2 →
      st2._log_rich = some b) := by
  refine ⟨?_, ?_, ?_, ?_⟩
  · intro hr hm
    simp [WorkerProcess.log, hdec, hr, hm]
  · intro hr hm
    simp [WorkerProcess.log, hdec, hr, hm]
  · intro hlen heq
    have := congrArg List.length heq
    simp only [List.length_take] at this
    omega
  · intro b st2 hr hlog
    simp [WorkerProcess.log, hdec, hr] at hlog
    cases b with
    | true =>
      have := (richProcess_frame hlog).2.2.2.1
      rw [this, hr]
    | false =>
      have h2 : Except.ok (ε := PyErr) (plainProcess st text) = Except.ok st2 := hlog
      injection h2 with h3
      rw [← h3, (plainProcess_frame st text).2.2.2.1, hr]

/-- Witness for C3: the exact marker as first chunk switches `w0` to
Structured mode. -/
theorem C3_witness :
    (w0._log_rich = none → cb_logging_aware.take cb_logging_aware.length = cb_logging_aware →
      WorkerProcess.log w0 2 (cb_logging_aware.map Char.toNat) =
        .ok { w0 with _log_rich := some true, _log_data := [] }) ∧
    (w0._log_rich = none → cb_logging_aware.take cb_logging_aware.length ≠ cb_logging_aware →
      WorkerProcess.log w0 2 (cb_logging_aware.map Char.toNat) =
        .ok (plainProcess { w0 with _log_rich := some false } cb_logging_aware)) ∧
    (cb_logging_aware.length < cb_logging_aware.length →
      cb_logging_aware.take cb_logging_aware.length ≠ cb_logging_aware) ∧
    (∀ b st2, w0._log_rich = some b →
      WorkerProcess.log w0 2 (cb_logging_aware.map Char.toNat) = .ok st2 →
      st2._log_rich = some b) :=
  C3_detection w0 (cb_logging_aware.map Char.toNat) cb_logging_aware rfl

/-! ## Claim C2: chunk-splitting machinery -/

theorem processRecord_setLogData (st : WorkerProcess) (d : List Char) (r : List Char) :
    processRecord (setLogData st d) r =
      Except.map (fun x => setLogData x d) (processRecord st r) := by
  cases st
  unfold processRecord setLogData
  cases decodeRecord r with
  | error e => rfl
  | ok ev =>
    dsimp only
    split_ifs <;> rfl

theorem foldlM_processRecord_setLogData (rs : List (List Char)) :
    ∀ (st : WorkerProcess) (d : List Char),
      List.foldlM processRecord (setLogData st d) rs =
        Except.map (fun x => setLogData x d) (List.foldlM processRecord st rs) := by
  induction rs with
  | nil => intro st d; rfl
  | cons r rs ih =>
    intro st d
    rw [List.foldlM_cons, List.foldlM_cons, processRecord_setLogData]
    cases hp : processRecord st r with
    | error e => rfl
    | ok s1 => exact ih s1 d

theorem richProcess_append (st : WorkerProcess) (a b : List Char) :
    (richProcess st a) >>= (fun s => richProcess s b) = richProcess st (a ++ b) := by
  unfold richProcess
  have hassoc : st._log_data ++ (a ++ b) = (st._log_data ++ a) ++ b :=
    (List.append_assoc _ _ _).symm
  rw [hassoc, drain_append (st._log_data ++ a) b]
  dsimp only
  rw [List.foldlM_append]
  have hL := foldlM_processRecord_setLogData
    (drain record_separator (st._log_data ++ a)).1 st
    (drain record_separator (st._log_data ++ a)).2
  have hR := foldlM_processRecord_setLogData
    (drain record_separator (st._log_data ++ a)).1 st
    (drain record_separator
      ((drain record_separator (st._log_data ++ a)).2 ++ b)).2
  rw [show ({ st with _log_data := (drain record_separator (st._log_data ++ a)).2 } :
        WorkerProcess) = setLogData st (drain record_separator (st._log_data ++ a)).2 from rfl,
      hL]
  rw [show ({ st with _log_data := (drain record_separator
        ((drain record_separator (st._log_data ++ a)).2 ++ b)).2 } : WorkerProcess) =
      setLogData st (drain record_separator
        ((drain record_separator (st._log_data ++ a)).2 ++ b)).2 from rfl,
      hR]
  cases hF : List.foldlM processRecord st (drain record_separator (st._log_data ++ a)).1 with
  | error e => rfl
  | ok s1 =>
    show richProcess (setLogData s1 (drain record_separator (st._log_data ++ a)).2) b = _
    unfold richProcess
    have h2 : (setLogData s1 (drain record_separator (st._log_data ++ a)).2)._log_data =
        (drain record_separator (st._log_data ++ a)).2 := rfl
    rw [h2]
    rfl

theorem log_rich (st : WorkerProcess) (c : List Nat) (tc : List Char)
    (hdec : utf8Decode c = some tc) (hrich : st._log_rich = some true) :
    WorkerProcess.log st 2 c = richProcess st tc := by
  simp [WorkerProcess.log, hdec, hrich]

theorem processChunks_eq_richAll {cs : List (List Nat)} {ts : List (List Char)}
    (hdec : List.Forall₂ (fun c tc => utf8Decode c = some tc) cs ts) :
    ∀ st : WorkerProcess, st._log_rich = some true →
      processChunks st cs = ts.foldlM (fun s t => richProcess s t) st := by
  induction hdec with
  | nil => intro st _; rfl
  | @cons c tc cs ts hct _ ih =>
    intro st hrich
    show (c :: cs).foldlM (fun s x => WorkerProcess.log s 2 x) st = _
    rw [List.foldlM_cons, List.foldlM_cons, log_rich st c tc hct hrich]
    cases hx : richProcess st tc with
    | error e => rfl
    | ok s1 =>
      have h1 : s1._log_rich = some true := by
        rw [(richProcess_frame hx).2.2.2.1, hrich]
      exact ih s1 h1

theorem foldlM_richProcess_join : ∀ (ts : List (List Char)) (st : WorkerProcess),
    record_separator ∉ st._log_data →
    ts.foldlM (fun s t => richProcess s t) st = richProcess st ts.flatten := by
  intro ts
  induction ts with
  | nil =>
    intro st h
    show Except.ok st = richProcess st []
    unfold richProcess
    rw [List.append_nil, drain_no_sep h]
    rfl
  | cons t ts ih =>
    intro st h
    rw [List.flatten_cons, ← richProcess_append, List.foldlM_cons]
    cases hx : richProcess st t with
    | error e => rfl
    | ok s1 =>
      have h1 : record_separator ∉ s1._log_data := (richProcess_frame hx).2.2.2.2.2.2
      exact ih s1 h1

theorem emissionFor_eq {st1 st : WorkerProcess} (h1 : st1.logname = st.logname)
    (h2 : st1.pid = st.pid) : emissionFor st1 = emissionFor st := by
  funext r
  unfold emissionFor
  rw [h1, h2]

theorem processRecord_ok_emitted (st : WorkerProcess) {r : List Char} {ev : RichEvent}
    (hd : decodeRecord r = .ok ev) :
    ∃ st1, processRecord st r = .ok st1 ∧
      st1.emitted = st.emitted ++ [emissionFor st r] ∧
      st1._log_data = st._log_data ∧ st1._log_rich = st._log_rich ∧
      st1.logname = st.logname ∧ st1.pid = st.pid := by
  unfold processRecord
  rw [hd]
  dsimp only
  by_cases ht : st._log_topic = []
  · rw [if_pos ht]
    exact ⟨_, rfl, by simp [emissionFor, hd], rfl, rfl, rfl, rfl⟩
  · rw [if_neg ht]
    exact ⟨_, rfl, by simp [emissionFor, hd], rfl, rfl, rfl, rfl⟩

theorem foldlM_processRecord_ok (rs : List (List Char)) : ∀ (st : WorkerProcess),
    (∀ r ∈ rs, (decodeRecord r).isOk = true) →
    ∃ st2, List.foldlM processRecord st rs = .ok st2 ∧
      st2.emitted = st.emitted ++ rs.map (emissionFor st) ∧
      st2._log_data = st._log_data ∧ st2._log_rich = st._log_rich := by
  induction rs with
  | nil => intro st _; exact ⟨st, rfl, by simp, rfl, rfl⟩
  | cons r rs ih =>
    intro st h
    have hr : (decodeRecord r).isOk = true := h r (List.mem_cons_self r rs)
    cases hd : decodeRecord r with
    | error e => rw [hd] at hr; exact absurd hr (by simp [Except.isOk, Except.toBool])
    | ok ev =>
      obtain ⟨st1, hpr, he, hld, hlr, hln, hpd⟩ := processRecord_ok_emitted st hd
      obtain ⟨st2, h1, h2, h3, h4⟩ := ih st1 (fun x hx => h x (List.mem_cons_of_mem r hx))
      refine ⟨st2, ?_, ?_, ?_, ?_⟩
      · rw [List.foldlM_cons, hpr]
        exact h1
      · rw [h2, he, emissionFor_eq hln hpd, List.map_cons]
        simp [List.append_assoc]
      · rw [h3, hld]
      · rw [h4, hlr]

/-- Claim C2 (amended): for cooperative-channel byte chunks that are each
individually valid UTF-8, whose concatenated text forms N well-formed
separator-delimited records followed by a trailing fragment, decoding emits
exactly the N record events in original order regardless of how the bytes are
split across chunks, and the trailing fragment is retained in the
accumulation buffer and never treated as a record.  (The per-chunk strict
UTF-8 decode means a split through the middle of a multi-byte character
raises instead — see the counterexample.) -/
theorem C2_chunk_invariance (st : WorkerProcess) (cs : List (List Nat))
    (ts : List (List Char)) (rs : List (List Char)) (t : List Char)
    (hdec : List.Forall₂ (fun c tc => utf8Decode c = some tc) cs ts)
    (hrich : st._log_rich = some true)
    (hbuf : record_separator ∉ st._log_data)
    (hjoin : st._log_data ++ ts.flatten = joinRecords record_separator rs ++ t)
    (hrs : ∀ r ∈ rs, record_separator ∉ r ∧ (decodeRecord r).isOk = true)
    (ht : record_separator ∉ t) :
    ∃ st2, processChunks st cs = .ok st2 ∧
      st2._log_data = t ∧
      st2.emitted = st.emitted ++ rs.map (emissionFor st) ∧
      st2._log_rich = some true := by
  rw [processChunks_eq_richAll hdec st hrich, foldlM_richProcess_join ts st hbuf]
  unfold richProcess
  have hd : drain record_separator (st._log_data ++ ts.flatten) = (rs, t) := by
    rw [hjoin, drain_join rs t (fun r hr => (hrs r hr).1), drain_no_sep ht]
    simp
  rw [hd]
  dsimp only
  obtain ⟨st2, h1, h2, h3, h4⟩ :=
    foldlM_processRecord_ok rs (setLogData st t) (fun r hr => (hrs r hr).2)
  refine ⟨st2, h1, h3, ?_, ?_⟩
  · rw [h2]
    have he : emissionFor (setLogData st t) = emissionFor st := emissionFor_eq rfl rfl
    rw [he]
    rfl
  · rw [h4]
    exact hrich

/-- Claim C2 counterexample: the concatenation of `cxA` and `cxB` is one
well-formed separator-delimited record (first two conjuncts), but splitting
the bytes through the middle of the two-byte UTF-8 character makes the first
`log` call raise `UnicodeDecodeError` and zero events are emitted — the
emitted events do depend on how the bytes are split across chunks. -/
theorem C2_counterexample :
    utf8Decode (cxA ++ cxB) = some (cxRecord ++ [record_separator]) ∧
    (decodeRecord cxRecord).isOk = true ∧
    record_separator ∉ cxRecord ∧
    processChunks richW [cxA, cxB] = .error .unicodeDecodeError :=
  ⟨rfl, rfl, by decide, rfl⟩

/-- Witness for C2: two records and a trailing fragment split unevenly across
two chunks. -/
theorem C2_witness :
    ∃ st2, processChunks richW [c2chunk1, c2chunk2] = .ok st2 ∧
      st2._log_data = c2tail ∧
      st2.emitted = richW.emitted ++ [c2r1, c2r2].map (emissionFor richW) ∧
      st2._log_rich = some true :=
  C2_chunk_invariance richW [c2chunk1, c2chunk2]
    [c2r1 ++ [record_separator] ++ ("\x7b\"text\":\"b\",").toList,
     (("\"level\":\"warn\"\x7d").toList) ++ [record_separator] ++ c2tail]
    [c2r1, c2r2] c2tail
    (.cons rfl (.cons rfl .nil))
    rfl (by decide) rfl (by decide) (by decide)

end Crossbar
